import Mathlib

/-!
Verification of `utils/generate_backend_completeness.py`, the reflection-driven
backend-completeness matrix generator.

The Python program is shallowly embedded as follows.

* A Python class is a `PyClass`: its `__name__` together with its member list
  as seen by `inspect.getmembers` (each member carries its attribute name and
  whether it is an instance of the `not_implemented` sentinel).
* `inspect.getmembers` returns the members sorted by name; this is modelled by
  an explicit insertion sort (`sortMembers`, `sortClasses`).  A class defined
  in a module is bound under its own name, so `getmembers` over a module is
  modelled as a by-name sorted list of the module's classes.
* The reflection environment (`Env`) abstracts over what the out-of-scope
  `narwhals` library would provide: the classes of each canonical module
  `narwhals.<module_name>` (those with matching `__module__`), and for every
  backend the classes of `narwhals.<backend>.<module_name>`, with `none`
  standing for `ModuleNotFoundError`.  The jinja template and the polars
  fixed-width table formatter are opaque black boxes (`template`, `showTable`).
* The polars pipeline in `render_table_and_write_to_output` is embedded as
  `renderMatrix`: concat / supported-literal / pivot on Backend with
  aggregate "first" (every aggregated value is the check-mark literal, so a
  pivot cell is the check mark exactly when the (backend, method) pair occurs)
  / filter on the narwhals column / drop it / fill_null / sort by Method /
  append the polars literal column / select the sorted columns.  The pivot
  raises if the `narwhals` column is absent and the final `select` raises on a
  duplicate `polars` column; both aborts are modelled by `none`.
* Python `str` comparison on the ASCII names involved coincides with
  code-point lexicographic order, implemented executably by `charListLt`.

Machine strings stay `String`, but every operation on them is re-implemented
over `String.data` so that all definitions reduce inside the kernel.
-/

namespace BackendCompleteness

/-! ## Executable string primitives (code-point lexicographic order, ASCII case
mapping, affix tests) -/

/-- Strict lexicographic order on char lists, comparing code points.  This is
Python's `<` on the (ASCII) identifier strings handled by the program. -/
def charListLt : List Char → List Char → Bool
  | _, [] => false
  | [], _ :: _ => true
  | a :: as, b :: bs =>
    if a.toNat < b.toNat then true
    else if b.toNat < a.toNat then false
    else charListLt as bs

/-- Python `a < b` on strings. -/
def strLt (a b : String) : Bool := charListLt a.data b.data

/-- Python `a <= b` on strings (complement of the reverse strict order). -/
def strLe (a b : String) : Bool := !(charListLt b.data a.data)

/-- The `≤` relation used by all sorting in the embedding. -/
def strLeRel : String → String → Prop := fun a b => strLe a b = true

/-- The strict counterpart, used to state row ordering. -/
def strLtRel : String → String → Prop := fun a b => strLt a b = true

instance : DecidableRel strLeRel := fun a b => by unfold strLeRel; infer_instance

instance : DecidableRel strLtRel := fun a b => by unfold strLtRel; infer_instance

/-- `p` is a prefix of `s` (as char lists). -/
def listAffixB : List Char → List Char → Bool
  | [], _ => true
  | _ :: _, [] => false
  | a :: as, b :: bs => a == b && listAffixB as bs

/-- Python `s.startswith(p)`. -/
def strStarts (s p : String) : Bool := listAffixB p.data s.data

/-- Python `s.endswith(p)`. -/
def strEnds (s p : String) : Bool := listAffixB p.data.reverse s.data.reverse

/-- ASCII lower-casing of one character (all names in scope are ASCII, where
Python `str.lower` agrees with this). -/
def charLower (c : Char) : Char :=
  if 65 ≤ c.toNat ∧ c.toNat ≤ 90 then Char.ofNat (c.toNat + 32) else c

/-- ASCII upper-casing of one character. -/
def charUpper (c : Char) : Char :=
  if 97 ≤ c.toNat ∧ c.toNat ≤ 122 then Char.ofNat (c.toNat - 32) else c

/-- Python `s.lower()`. -/
def strLower (s : String) : String := ⟨s.data.map charLower⟩

/-- Python `s.capitalize()`: first character upper-cased, the rest
lower-cased. -/
def pyCapitalize (s : String) : String :=
  match s.data with
  | [] => ""
  | c :: cs => ⟨charUpper c :: cs.map charLower⟩

/-- Python `s.replace("_", ".")`; the pattern and the replacement are single
characters, so this is a character map. -/
def replaceUnderscore (s : String) : String :=
  ⟨s.data.map fun c => if c = '_' then '.' else c⟩

/-! ## Registry (the static configuration of the script) -/

inductive BackendType where
  | LAZY
  | EAGER
  | BOTH
deriving DecidableEq

structure Backend where
  name : String
  module : String
  type_ : BackendType
deriving DecidableEq

def MODULES : List String :=
  ["dataframe", "series", "expr", "expr_dt", "expr_cat", "expr_str",
   "expr_list", "expr_name", "expr_struct", "series_dt", "series_cat",
   "series_str", "series_list", "series_struct"]

def BACKENDS : List Backend :=
  [⟨"arrow", "_arrow", .EAGER⟩,
   ⟨"dask", "_dask", .LAZY⟩,
   ⟨"duckdb", "_duckdb", .LAZY⟩,
   ⟨"pandas-like", "_pandas_like", .EAGER⟩,
   ⟨"spark-like", "_spark_like", .LAZY⟩]

def EXCLUDE_CLASSES : List String := ["BaseFrame", "Then", "When"]

def DIRECTLY_IMPLEMENTED_METHODS : List String := ["pipe", "implementation", "to_native"]

def EXPR_STR_METHODS : List String := ["tail", "head"]

/-- The set literal `{"DataFrame", "LazyFrame"}` tested in the driver loop. -/
def FRAME_CLASSES : List String := ["DataFrame", "LazyFrame"]

/-! ## Reflection data model -/

/-- One attribute of a class as seen by `inspect.getmembers`: its attribute
name and whether the value is an instance of the `not_implemented` sentinel. -/
structure PyMember where
  name : String
  notImpl : Bool
deriving DecidableEq

/-- A Python class: its `__name__` and its members.  Classes are bound in
their defining module under their own name. -/
structure PyClass where
  name : String
  members : List PyMember
deriving DecidableEq

/-- By-name order on members. -/
def memberLe : PyMember → PyMember → Prop := fun a b => strLe a.name b.name = true

/-- By-name order on classes. -/
def classLe : PyClass → PyClass → Prop := fun a b => strLe a.name b.name = true

instance : DecidableRel memberLe := fun a b => by unfold memberLe; infer_instance

instance : DecidableRel classLe := fun a b => by unfold classLe; infer_instance

/-- `inspect.getmembers` sorts the `(name, value)` pairs by name. -/
def sortMembers (ms : List PyMember) : List PyMember := List.insertionSort memberLe ms

/-- `inspect.getmembers` over a module, restricted to classes. -/
def sortClasses (cs : List PyClass) : List PyClass := List.insertionSort classLe cs

/-- `get_class_methods`: every member name that does not start with `"_"`. -/
def get_class_methods (kls : PyClass) : List String :=
  ((sortMembers kls.members).filter fun m => !(strStarts m.name "_")).map PyMember.name

/-- `iter_implemented_methods`: as `get_class_methods` but also excluding
`not_implemented` instances. -/
def iter_implemented_methods (tp : PyClass) : List String :=
  ((sortMembers tp.members).filter fun m => !(strStarts m.name "_") && !m.notImpl).map
    PyMember.name

/-! ## Rendered matrix -/

/-- The pivoted presence matrix as finally selected: the columns after
`Method` (in display order), and for each row the method name together with
the `(column, cell)` pairs in column order. -/
structure Matrix where
  cols : List String
  rows : List (String × List (String × String))
deriving DecidableEq

/-- The abstract reflection environment plus the out-of-scope text machinery.

`nwModule m` is the class list of `narwhals.<m>` (classes whose `__module__`
matches, as the driver's predicate demands); a canonical module listed in
`MODULES` that is missing is a fatal configuration error outside this model.
`backendModule b m` is the class list of `narwhals.<b>.<m>`, or `none` when
that import raises `ModuleNotFoundError`.  `template` is the jinja template
applied to title and table; `showTable` is the polars fixed-width formatter. -/
structure Env where
  nwModule : String → List PyClass
  backendModule : String → String → Option (List PyClass)
  template : String → String → String
  showTable : Matrix → String

/-- The predicate of `parse_module`'s `inspect.getmembers` call: a class whose
name ends with the narwhals class name and is neither a `Compliant*` protocol
nor the `DuckDBInterchange*` marker. -/
def matchesClass (nw_class_name : String) (c : PyClass) : Bool :=
  strEnds c.name nw_class_name && !(strStarts c.name "Compliant")
    && !(strStarts c.name "DuckDBInterchange")

/-- `parse_module`: resolve the backend's concrete class for one conceptual
module and return its implemented method names plus the hard-coded extras.
A missing module (`none`) or a missing matching class yields `[]`. -/
def parse_module (env : Env) (module_name backend nw_class_name : String) : List String :=
  match env.backendModule backend module_name with
  | none => []
  | some classes =>
    match (sortClasses classes).filter (matchesClass nw_class_name) with
    | [] => []
    | c :: _ =>
      iter_implemented_methods c ++ DIRECTLY_IMPLEMENTED_METHODS
        ++ (if module_name = "expr_str" then EXPR_STR_METHODS else [])

def CHECK_MARK : String := ":white_check_mark:"

def CROSS_MARK : String := ":x:"

/-- The distinct `Backend` values of the concatenated input frames; these are
the pivot's value columns. -/
def seenBackends (results : List (String × String)) : List String :=
  (results.map Prod.fst).dedup

/-- Row labels after the pivot, the narwhals filter and the sort: the distinct
methods that occur with backend `"narwhals"`, sorted ascending.  (Which
duplicate of a method the pivot keeps is irrelevant: the rows are sorted and
`aggregate_function="first"` only ever aggregates the constant check mark.) -/
def keptMethods (results : List (String × String)) : List String :=
  List.insertionSort strLeRel
    (((results.map Prod.snd).dedup).filter fun m => decide (("narwhals", m) ∈ results))

/-- Display columns of the final `select`: the pivot columns minus the dropped
`narwhals` one, plus the appended `polars` column, sorted ascending. -/
def matrixCols (results : List (String × String)) : List String :=
  List.insertionSort strLeRel (((seenBackends results).erase "narwhals") ++ ["polars"])

/-- One cell: the synthetic `polars` column is the check-mark literal; any
other column is the check mark when the pair occurred and the
`fill_null(":x:")` cross otherwise. -/
def cellValue (results : List (String × String)) (b meth : String) : String :=
  if b = "polars" then CHECK_MARK
  else if (b, meth) ∈ results then CHECK_MARK else CROSS_MARK

/-- `render_table_and_write_to_output`'s dataframe pipeline, from the
concatenated `(Backend, Method)` rows to the selected table.  `none` models
the two raising corners: the pivot result has no `narwhals` column (the
`filter` raises `ColumnNotFoundError`), or `"polars"` already is a pivot
column (the final `select` raises a duplicate-column error). -/
def renderMatrix (results : List (String × String)) : Option Matrix :=
  if "narwhals" ∈ seenBackends results ∧ "polars" ∉ seenBackends results then
    some ⟨matrixCols results,
      (keptMethods results).map fun meth =>
        (meth, (matrixCols results).map fun b => (b, cellValue results b meth))⟩
  else none

/-! ## Driver (`get_backend_completeness_table`) -/

/-- The `(Backend, Method)` rows contributed by one narwhals class: the
`narwhals`-labelled canonical frame followed by one frame per backend in
registry order (the order in which `pl.concat` receives them). -/
def classRows (env : Env) (module_name : String) (c : PyClass) : List (String × String) :=
  ((get_class_methods c).map fun m => ("narwhals", m))
    ++ (BACKENDS.map fun b =>
          (parse_module env module_name b.module c.name).map fun m => (b.name, m)).flatten

/-- One output document: the jinja `title`, the output file stem, and the
matrix whose formatted table is substituted into the template. -/
structure Doc where
  title : String
  filename : String
  matrix : Matrix
deriving DecidableEq

/-- The driver's per-module mutable state: the accumulated `results` frames
(as rows), the `processed_classes` set (kept as a list; only members of
`FRAME_CLASSES` are ever added, so the python `==` test against the two-frame
set literal is the conjunction of the two memberships), the documents written
so far, and whether an exception aborted the run. -/
structure LoopState where
  results : List (String × String)
  processed : List String
  docs : List Doc
  aborted : Bool
deriving DecidableEq

/-- The `for nw_class_name, nw_class in classes_` loop.  Excluded classes are
skipped; every other class appends its rows to `results`; the two frame
classes additionally render an individual document at once (a failed render
raises, which stops everything). -/
def processClasses (env : Env) (module_name : String) :
    List PyClass → LoopState → LoopState
  | [], st => st
  | c :: rest, st =>
    if c.name ∈ EXCLUDE_CLASSES then processClasses env module_name rest st
    else
      let rows := classRows env module_name c
      if c.name ∈ FRAME_CLASSES then
        match renderMatrix rows with
        | none => { st with results := st.results ++ rows, aborted := true }
        | some m =>
          processClasses env module_name rest
            { results := st.results ++ rows
              processed := st.processed ++ [c.name]
              docs := st.docs ++ [⟨c.name, strLower c.name, m⟩]
              aborted := st.aborted }
      else
        processClasses env module_name rest { st with results := st.results ++ rows }

/-- The outcome of one iteration of the driver's module loop: the individual
frame documents written inside the loop, the module-level aggregate document
(`none` when skipped or when the run aborted first), and the abort flag. -/
structure ModuleResult where
  individuals : List Doc
  aggregate : Option Doc
  aborted : Bool
deriving DecidableEq

/-- The human-readable module title: `module_name.capitalize().replace("_", ".")`. -/
def moduleTitle (module_name : String) : String :=
  replaceUnderscore (pyCapitalize module_name)

/-- One iteration of the driver's outer loop over `MODULES`: scan the module's
classes, then either skip the aggregate (when `processed_classes` equals the
two-frame set) or render it over all accumulated rows. -/
def processModule (env : Env) (module_name : String) : ModuleResult :=
  let st := processClasses env module_name (sortClasses (env.nwModule module_name))
    ⟨[], [], [], false⟩
  if st.aborted then ⟨st.docs, none, true⟩
  else if "DataFrame" ∈ st.processed ∧ "LazyFrame" ∈ st.processed then
    ⟨st.docs, none, false⟩
  else
    match renderMatrix st.results with
    | none => ⟨st.docs, none, true⟩
    | some m => ⟨st.docs, some ⟨moduleTitle module_name, module_name, m⟩, false⟩

/-- All documents produced by one module iteration, in write order. -/
def ModuleResult.allDocs (r : ModuleResult) : List Doc :=
  r.individuals ++ r.aggregate.toList

/-- The outer loop: module results concatenate until an abort (a raised
exception propagates out of `get_backend_completeness_table`). -/
def runModules (env : Env) : List String → List Doc × Bool
  | [] => ([], false)
  | m :: ms =>
    let r := processModule env m
    if r.aborted then (r.allDocs, true)
    else
      let rest := runModules env ms
      (r.allDocs ++ rest.1, rest.2)

/-- `get_backend_completeness_table`: the documents the whole run writes, in
order (truncated at an abort). -/
def get_backend_completeness_table (env : Env) : List Doc :=
  (runModules env MODULES).1

/-! ## File output -/

/-- The single file write a document performs: destination name
`<filename>.md`, contents the template applied to title and formatted table. -/
def docWrite (env : Env) (d : Doc) : String × String :=
  (d.filename ++ ".md", env.template d.title (env.showTable d.matrix))

/-- Every file write of one run, in order. -/
def driverWrites (env : Env) : List (String × String) :=
  (get_backend_completeness_table env).map (docWrite env)

/-- The destination directory as a name-to-contents map. -/
def Store : Type := String → Option String

/-- Apply a list of file writes in order; each write overwrites. -/
def applyWrites : List (String × String) → Store → Store
  | [], s => s
  | (n, content) :: ws, s =>
    applyWrites ws fun k => if k = n then some content else s k

/-- The contents the last write to `n` in the list would leave, if any. -/
def lastWrite : List (String × String) → String → Option String
  | [], _ => none
  | (k, v) :: ws, n =>
    match lastWrite ws n with
    | some v2 => some v2
    | none => if k = n then some v else none

/-! ## Concrete reflection environments (for witnesses and counterexamples) -/

/-- A minimal environment: every canonical module holds one class `Thing`
with one public implemented member `alpha`; no backend implements anything. -/
def envW : Env where
  nwModule := fun _ => [⟨"Thing", [⟨"alpha", false⟩]⟩]
  backendModule := fun _ _ => none
  template := fun t tbl => t ++ tbl
  showTable := fun _ => ""

/-- As `envW`, but the spark-like backend implements `Thing` everywhere. -/
def envC1 : Env where
  nwModule := fun _ => [⟨"Thing", [⟨"alpha", false⟩]⟩]
  backendModule := fun b _ =>
    if b = "_spark_like" then some [⟨"SparkThing", [⟨"alpha", false⟩]⟩] else none
  template := fun t tbl => t ++ tbl
  showTable := fun _ => ""

/-- Every canonical module holds `DataFrame`, `LazyFrame` and a third class
`Extra`; no backend implements anything. -/
def envC2 : Env where
  nwModule := fun _ =>
    [⟨"DataFrame", [⟨"alpha", false⟩]⟩, ⟨"Extra", [⟨"beta", false⟩]⟩,
     ⟨"LazyFrame", [⟨"alpha", false⟩]⟩]
  backendModule := fun _ _ => none
  template := fun t tbl => t ++ tbl
  showTable := fun _ => ""

/-- The arrow backend has an `expr_str` module with a matching class whose
own members do not include the convenience aliases. -/
def envC3 : Env where
  nwModule := fun _ => [⟨"StrNS", [⟨"alpha", false⟩]⟩]
  backendModule := fun b m =>
    if b = "_arrow" ∧ m = "expr_str" then some [⟨"ArrowStrNS", [⟨"alpha", false⟩]⟩]
    else none
  template := fun t tbl => t ++ tbl
  showTable := fun _ => ""

/-- Two canonical classes `Thing` and `ThingExtra`; arrow implements `Thing`
with a class whose only public member `beta` is a canonical method of
`ThingExtra` but not of `Thing`. -/
def envC4 : Env where
  nwModule := fun _ => [⟨"Thing", [⟨"alpha", false⟩]⟩, ⟨"ThingExtra", [⟨"beta", false⟩]⟩]
  backendModule := fun b _ =>
    if b = "_arrow" then some [⟨"ArrowThing", [⟨"beta", false⟩]⟩] else none
  template := fun t tbl => t ++ tbl
  showTable := fun _ => ""

/-- The arrow backend's `series` module holds two classes matching the
canonical class name `Series`, with distinct members. -/
def envC10 : Env where
  nwModule := fun _ => [⟨"Series", [⟨"alpha", false⟩]⟩]
  backendModule := fun b m =>
    if b = "_arrow" ∧ m = "series" then
      some [⟨"BSeries", [⟨"bmem", false⟩]⟩, ⟨"ASeries", [⟨"amem", false⟩]⟩]
    else none
  template := fun t tbl => t ++ tbl
  showTable := fun _ => ""

/-! ## Order lemmas for the executable string comparison -/

theorem charListLt_irrefl : ∀ a : List Char, charListLt a a = false
  | [] => rfl
  | c :: cs => by simp [charListLt, charListLt_irrefl cs]

theorem charListLt_trans :
    ∀ a b c : List Char, charListLt a b = true → charListLt b c = true →
      charListLt a c = true := by
  intro a
  induction a with
  | nil =>
    intro b c h1 h2
    cases b with
    | nil => simp [charListLt] at h1
    | cons y ys =>
      cases c with
      | nil => simp [charListLt] at h2
      | cons z zs => simp [charListLt]
  | cons x xs ih =>
    intro b c h1 h2
    cases b with
    | nil => simp [charListLt] at h1
    | cons y ys =>
      cases c with
      | nil => simp [charListLt] at h2
      | cons z zs =>
        simp only [charListLt] at h1 h2 ⊢
        split_ifs at h1 h2 ⊢ <;>
          first
          | rfl
          | omega
          | exact ih ys zs h1 h2

theorem charListLt_connex :
    ∀ a b : List Char, charListLt a b = false → charListLt b a = false → a = b := by
  intro a
  induction a with
  | nil =>
    intro b h1 _
    cases b with
    | nil => rfl
    | cons y ys => simp [charListLt] at h1
  | cons x xs ih =>
    intro b h1 h2
    cases b with
    | nil => simp [charListLt] at h2
    | cons y ys =>
      simp only [charListLt] at h1 h2
      split_ifs at h1 h2 with hxy hyx
      simp [Char.ext (UInt32.ext (Nat.le_antisymm (Nat.le_of_not_lt hyx) (Nat.le_of_not_lt hxy))), ih ys h1 h2]

theorem charListLt_asymm {a b : List Char} (h : charListLt a b = true) :
    charListLt b a = false := by
  by_contra hc
  have h2 : charListLt b a = true := by
    cases hba : charListLt b a
    · exact absurd hba hc
    · rfl
  have := charListLt_trans a b a h h2
  rw [charListLt_irrefl] at this
  exact Bool.false_ne_true this

theorem strDataEq {a b : String} (h : a.data = b.data) : a = b := by
  cases a
  cases b
  exact congrArg String.mk h

theorem strLe_total (a b : String) : strLe a b = true ∨ strLe b a = true := by
  unfold strLe
  cases hba : charListLt b.data a.data
  · left; rfl
  · right
    rw [charListLt_asymm hba]
    rfl

theorem strLe_trans (a b c : String) (h1 : strLe a b = true) (h2 : strLe b c = true) :
    strLe a c = true := by
  unfold strLe at h1 h2 ⊢
  rw [Bool.not_eq_true'] at h1 h2 ⊢
  by_contra hc
  have hca : charListLt c.data a.data = true := by
    cases h : charListLt c.data a.data
    · exact absurd h hc
    · rfl
  cases hcb : charListLt c.data b.data with
  | true => rw [hcb] at h2; exact Bool.noConfusion h2
  | false =>
    cases hbc : charListLt b.data c.data with
    | false =>
      have : c.data = b.data := charListLt_connex c.data b.data hcb hbc
      rw [this] at hca
      rw [hca] at h1
      exact Bool.noConfusion h1
    | true =>
      have := charListLt_trans b.data c.data a.data hbc hca
      rw [this] at h1
      exact Bool.noConfusion h1

theorem strLe_ne_lt {a b : String} (h1 : strLe a b = true) (h2 : a ≠ b) :
    strLt a b = true := by
  unfold strLe at h1
  unfold strLt
  rw [Bool.not_eq_true'] at h1
  cases hab : charListLt a.data b.data
  · exact absurd (strDataEq (charListLt_connex a.data b.data hab h1)) h2
  · rfl

instance : IsTotal String strLeRel := ⟨strLe_total⟩

instance : IsTrans String strLeRel := ⟨strLe_trans⟩

instance : IsTotal PyMember memberLe := ⟨fun a b => strLe_total a.name b.name⟩

instance : IsTrans PyMember memberLe := ⟨fun a b c => strLe_trans a.name b.name c.name⟩

instance : IsTotal PyClass classLe := ⟨fun a b => strLe_total a.name b.name⟩

instance : IsTrans PyClass classLe := ⟨fun a b c => strLe_trans a.name b.name c.name⟩

/-! ## Characterization of the rendered matrix -/

theorem mem_keptMethods {r : List (String × String)} {meth : String} :
    meth ∈ keptMethods r ↔ ("narwhals", meth) ∈ r := by
  unfold keptMethods
  rw [List.mem_insertionSort, List.mem_filter, decide_eq_true_eq, List.mem_dedup]
  constructor
  · rintro ⟨-, h⟩
    exact h
  · intro h
    exact ⟨List.mem_map_of_mem Prod.snd h, h⟩

theorem keptMethods_sorted (r : List (String × String)) :
    List.Sorted strLeRel (keptMethods r) :=
  List.sorted_insertionSort _ _

theorem keptMethods_nodup (r : List (String × String)) : (keptMethods r).Nodup :=
  (List.perm_insertionSort _ _).nodup_iff.mpr ((List.nodup_dedup _).filter _)

theorem keptMethods_sorted_lt (r : List (String × String)) :
    List.Sorted strLtRel (keptMethods r) :=
  (keptMethods_sorted r).imp₂ (fun _ _ hle hne => strLe_ne_lt hle hne)
    (keptMethods_nodup r)

theorem mem_matrixCols {r : List (String × String)} {b : String} :
    b ∈ matrixCols r ↔ b = "polars" ∨ (b ≠ "narwhals" ∧ b ∈ r.map Prod.fst) := by
  unfold matrixCols seenBackends
  rw [List.mem_insertionSort, List.mem_append, (List.nodup_dedup _).mem_erase_iff,
    List.mem_dedup]
  simp only [List.mem_singleton]
  tauto

theorem matrixCols_sorted (r : List (String × String)) :
    List.Sorted strLeRel (matrixCols r) :=
  List.sorted_insertionSort _ _

theorem renderMatrix_some {r : List (String × String)} {m : Matrix}
    (h : renderMatrix r = some m) :
    m.cols = matrixCols r ∧
      m.rows = ((keptMethods r).map fun meth =>
        (meth, (matrixCols r).map fun b => (b, cellValue r b meth))) ∧
      "narwhals" ∈ seenBackends r ∧ "polars" ∉ seenBackends r := by
  unfold renderMatrix at h
  split at h
  next hc =>
    injection h with h2
    subst h2
    exact ⟨rfl, rfl, hc.1, hc.2⟩
  next => exact absurd h (by simp)

theorem renderMatrix_rowNames {r : List (String × String)} {m : Matrix}
    (h : renderMatrix r = some m) : m.rows.map Prod.fst = keptMethods r := by
  obtain ⟨-, hr, -, -⟩ := renderMatrix_some h
  rw [hr, List.map_map]
  exact List.map_id _

/-! ## Provenance of rows and documents in the driver loop -/

theorem mem_classRows {env : Env} {module_name : String} {c : PyClass}
    {p : String × String} (h : p ∈ classRows env module_name c) :
    (p.1 = "narwhals" ∧ p.2 ∈ get_class_methods c) ∨
      ∃ b ∈ BACKENDS, p.1 = b.name ∧ p.2 ∈ parse_module env module_name b.module c.name := by
  unfold classRows at h
  rw [List.mem_append] at h
  rcases h with h | h
  · left
    obtain ⟨meth, hm, hp⟩ := List.mem_map.mp h
    exact ⟨by rw [← hp], by rw [← hp]; exact hm⟩
  · right
    rw [List.mem_flatten] at h
    obtain ⟨l, hl, hpl⟩ := h
    obtain ⟨b, hb, hbl⟩ := List.mem_map.mp hl
    obtain ⟨meth, hmeth, hp⟩ := List.mem_map.mp (hbl ▸ hpl)
    exact ⟨b, hb, by rw [← hp], by rw [← hp]; exact hmeth⟩

theorem backends_name_ne_narwhals : ∀ b ∈ BACKENDS, b.name ≠ "narwhals" := by decide

theorem backends_name_ne_polars : ∀ b ∈ BACKENDS, b.name ≠ "polars" := by decide

theorem narwhals_mem_classRows {env : Env} {module_name : String} {c : PyClass}
    {meth : String} (h : ("narwhals", meth) ∈ classRows env module_name c) :
    meth ∈ get_class_methods c := by
  rcases mem_classRows h with ⟨-, h2⟩ | ⟨b, hb, hname, -⟩
  · exact h2
  · exact absurd hname.symm (backends_name_ne_narwhals b hb)

/-- Provenance of the loop state: every accumulated row and every written
document comes either from the input state or from some non-excluded class of
the scanned list. -/
theorem processClasses_spec (env : Env) (module_name : String) :
    ∀ (cs : List PyClass) (st : LoopState),
      (∀ p ∈ (processClasses env module_name cs st).results,
        p ∈ st.results ∨ ∃ c ∈ cs, c.name ∉ EXCLUDE_CLASSES ∧
          p ∈ classRows env module_name c) ∧
      (∀ d ∈ (processClasses env module_name cs st).docs,
        d ∈ st.docs ∨ ∃ c ∈ cs, c.name ∉ EXCLUDE_CLASSES ∧ c.name ∈ FRAME_CLASSES ∧
          d.title = c.name ∧ d.filename = strLower c.name ∧
          renderMatrix (classRows env module_name c) = some d.matrix) := by
  intro cs
  induction cs with
  | nil =>
    intro st
    constructor
    · intro p hp
      exact Or.inl hp
    · intro d hd
      exact Or.inl hd
  | cons c rest ih =>
    intro st
    by_cases hex : c.name ∈ EXCLUDE_CLASSES
    · have hstep : processClasses env module_name (c :: rest) st
          = processClasses env module_name rest st := by
        simp [processClasses, hex]
      rw [hstep]
      refine ⟨fun p hp => ?_, fun d hd => ?_⟩
      · rcases (ih st).1 p hp with h | ⟨c2, hc2, hne, hmem⟩
        · exact Or.inl h
        · exact Or.inr ⟨c2, List.mem_cons_of_mem c hc2, hne, hmem⟩
      · rcases (ih st).2 d hd with h | ⟨c2, hc2, hne, hfr, hrest⟩
        · exact Or.inl h
        · exact Or.inr ⟨c2, List.mem_cons_of_mem c hc2, hne, hfr, hrest⟩
    · by_cases hfr : c.name ∈ FRAME_CLASSES
      · cases hrm : renderMatrix (classRows env module_name c) with
        | none =>
          have hstep : processClasses env module_name (c :: rest) st
              = LoopState.mk (st.results ++ classRows env module_name c)
                  st.processed st.docs true := by
            simp [processClasses, hex, hfr, hrm]
          rw [hstep]
          refine ⟨fun p hp => ?_, fun d hd => Or.inl hd⟩
          rcases List.mem_append.mp hp with h | h
          · exact Or.inl h
          · exact Or.inr ⟨c, List.mem_cons_self c rest, hex, h⟩
        | some m =>
          have hstep : processClasses env module_name (c :: rest) st
              = processClasses env module_name rest
                  (LoopState.mk (st.results ++ classRows env module_name c)
                    (st.processed ++ [c.name])
                    (st.docs ++ [⟨c.name, strLower c.name, m⟩]) st.aborted) := by
            simp [processClasses, hex, hfr, hrm]
          rw [hstep]
          refine ⟨fun p hp => ?_, fun d hd => ?_⟩
          · rcases (ih _).1 p hp with h | ⟨c2, hc2, hne, hmem⟩
            · rcases List.mem_append.mp h with h2 | h2
              · exact Or.inl h2
              · exact Or.inr ⟨c, List.mem_cons_self c rest, hex, h2⟩
            · exact Or.inr ⟨c2, List.mem_cons_of_mem c hc2, hne, hmem⟩
          · rcases (ih _).2 d hd with h | ⟨c2, hc2, hne, hfr2, hrest⟩
            · rcases List.mem_append.mp h with h2 | h2
              · exact Or.inl h2
              · rw [List.mem_singleton] at h2
                subst h2
                exact Or.inr ⟨c, List.mem_cons_self c rest, hex, hfr, rfl, rfl, hrm⟩
            · exact Or.inr ⟨c2, List.mem_cons_of_mem c hc2, hne, hfr2, hrest⟩
      · have hstep : processClasses env module_name (c :: rest) st
            = processClasses env module_name rest
                (LoopState.mk (st.results ++ classRows env module_name c)
                  st.processed st.docs st.aborted) := by
          simp [processClasses, hex, hfr]
        rw [hstep]
        refine ⟨fun p hp => ?_, fun d hd => ?_⟩
        · rcases (ih _).1 p hp with h | ⟨c2, hc2, hne, hmem⟩
          · rcases List.mem_append.mp h with h2 | h2
            · exact Or.inl h2
            · exact Or.inr ⟨c, List.mem_cons_self c rest, hex, h2⟩
          · exact Or.inr ⟨c2, List.mem_cons_of_mem c hc2, hne, hmem⟩
        · rcases (ih _).2 d hd with h | ⟨c2, hc2, hne, hfr2, hrest⟩
          · exact Or.inl h
          · exact Or.inr ⟨c2, List.mem_cons_of_mem c hc2, hne, hfr2, hrest⟩

/-- When the scan of a class list completes without abort, the
`processed_classes` entries are exactly the input ones plus the names of the
non-excluded frame classes in the list. -/
theorem processClasses_processed (env : Env) (module_name : String) :
    ∀ (cs : List PyClass) (st : LoopState),
      (processClasses env module_name cs st).aborted = false →
      ∀ n, n ∈ (processClasses env module_name cs st).processed ↔
        n ∈ st.processed ∨ ∃ c ∈ cs, c.name = n ∧ n ∈ FRAME_CLASSES ∧
          n ∉ EXCLUDE_CLASSES := by
  intro cs
  induction cs with
  | nil =>
    intro st _ n
    simp [processClasses]
  | cons c rest ih =>
    intro st hab n
    by_cases hex : c.name ∈ EXCLUDE_CLASSES
    · have hstep : processClasses env module_name (c :: rest) st
          = processClasses env module_name rest st := by
        simp [processClasses, hex]
      rw [hstep] at hab ⊢
      rw [ih st hab n]
      constructor
      · rintro (h | ⟨c2, hc2, rest2⟩)
        · exact Or.inl h
        · exact Or.inr ⟨c2, List.mem_cons_of_mem c hc2, rest2⟩
      · rintro (h | ⟨c2, hc2, hname, hfr2, hnex⟩)
        · exact Or.inl h
        · rcases List.mem_cons.mp hc2 with h2 | h2
          · subst h2
            exact absurd hex (hname ▸ hnex)
          · exact Or.inr ⟨c2, h2, hname, hfr2, hnex⟩
    · by_cases hfr : c.name ∈ FRAME_CLASSES
      · cases hrm : renderMatrix (classRows env module_name c) with
        | none =>
          have hstep : processClasses env module_name (c :: rest) st
              = LoopState.mk (st.results ++ classRows env module_name c)
                  st.processed st.docs true := by
            simp [processClasses, hex, hfr, hrm]
          rw [hstep] at hab
          exact absurd hab (by simp)
        | some m =>
          have hstep : processClasses env module_name (c :: rest) st
              = processClasses env module_name rest
                  (LoopState.mk (st.results ++ classRows env module_name c)
                    (st.processed ++ [c.name])
                    (st.docs ++ [⟨c.name, strLower c.name, m⟩]) st.aborted) := by
            simp [processClasses, hex, hfr, hrm]
          rw [hstep] at hab ⊢
          rw [ih _ hab n]
          simp only [List.mem_append, List.mem_singleton]
          constructor
          · rintro ((h | h) | ⟨c2, hc2, rest2⟩)
            · exact Or.inl h
            · exact Or.inr ⟨c, List.mem_cons_self c rest, h.symm, h ▸ hfr, h ▸ hex⟩
            · exact Or.inr ⟨c2, List.mem_cons_of_mem c hc2, rest2⟩
          · rintro (h | ⟨c2, hc2, hname, hfr2, hnex⟩)
            · exact Or.inl (Or.inl h)
            · rcases List.mem_cons.mp hc2 with h2 | h2
              · subst h2
                exact Or.inl (Or.inr hname.symm)
              · exact Or.inr ⟨c2, h2, hname, hfr2, hnex⟩
      · have hstep : processClasses env module_name (c :: rest) st
            = processClasses env module_name rest
                (LoopState.mk (st.results ++ classRows env module_name c)
                  st.processed st.docs st.aborted) := by
          simp [processClasses, hex, hfr]
        rw [hstep] at hab ⊢
        rw [ih _ hab n]
        constructor
        · rintro (h | ⟨c2, hc2, rest2⟩)
          · exact Or.inl h
          · exact Or.inr ⟨c2, List.mem_cons_of_mem c hc2, rest2⟩
        · rintro (h | ⟨c2, hc2, hname, hfr2, hnex⟩)
          · exact Or.inl h
          · rcases List.mem_cons.mp hc2 with h2 | h2
            · subst h2
              exact absurd (hname ▸ hfr2) hfr
            · exact Or.inr ⟨c2, h2, hname, hfr2, hnex⟩

/-- The individual documents of a module iteration are exactly the loop's. -/
theorem processModule_individuals (env : Env) (module_name : String) :
    (processModule env module_name).individuals
      = (processClasses env module_name (sortClasses (env.nwModule module_name))
          ⟨[], [], [], false⟩).docs := by
  unfold processModule
  dsimp only
  split
  · rfl
  · split
    · rfl
    · split
      · rfl
      · rfl

/-- If a module iteration emitted an aggregate document, it was rendered from
all rows the class scan accumulated, with the module's title and filename. -/
theorem processModule_aggregate {env : Env} {module_name : String} {d : Doc}
    (h : (processModule env module_name).aggregate = some d) :
    renderMatrix (processClasses env module_name
        (sortClasses (env.nwModule module_name)) ⟨[], [], [], false⟩).results
      = some d.matrix ∧
      d.title = moduleTitle module_name ∧ d.filename = module_name := by
  unfold processModule at h
  dsimp only at h
  split at h
  · exact absurd h (by simp)
  · split at h
    · exact absurd h (by simp)
    · split at h
      · exact absurd h (by simp)
      · next m heq =>
        injection h with h2
        subst h2
        exact ⟨heq, rfl, rfl⟩

/-! ## Claims -/

theorem backends_name_inj :
    ∀ b1 ∈ BACKENDS, ∀ b2 ∈ BACKENDS, b1.name = b2.name → b1 = b2 := by decide

/-- A matrix column is either the synthetic `polars` column or the label of
some input row. -/
theorem col_from_rows {rows : List (String × String)} {m : Matrix}
    (h : renderMatrix rows = some m) {x : String} (hx : x ∈ m.cols) :
    x = "polars" ∨ x ∈ rows.map Prod.fst := by
  obtain ⟨hcols, -, -, -⟩ := renderMatrix_some h
  rw [hcols] at hx
  rcases mem_matrixCols.mp hx with h2 | ⟨-, h2⟩
  · exact Or.inl h2
  · exact Or.inr h2

/-- A backend that contributes no row to a matrix that renders successfully
from class rows has no column in it. -/
theorem no_column_of_no_rows {env : Env} {module_name : String} {b : Backend}
    (hb : b ∈ BACKENDS)
    (hparse : ∀ cname, parse_module env module_name b.module cname = [])
    {rows : List (String × String)} {m : Matrix} (hrm : renderMatrix rows = some m)
    (hprov : ∀ p ∈ rows, ∃ c : PyClass, p ∈ classRows env module_name c) :
    b.name ∉ m.cols := by
  intro hbcol
  rcases col_from_rows hrm hbcol with h | h
  · exact backends_name_ne_polars b hb h
  · obtain ⟨p, hp, hp1⟩ := List.mem_map.mp h
    obtain ⟨c, hc⟩ := hprov p hp
    rcases mem_classRows hc with ⟨hn, -⟩ | ⟨b2, hb2, hn2, hpm⟩
    · exact backends_name_ne_narwhals b hb (hp1 ▸ hn)
    · have hbb : b2 = b := backends_name_inj b2 hb2 b hb (by rw [← hn2, hp1])
      rw [hbb, hparse c.name] at hpm
      exact List.not_mem_nil p.2 hpm

/-- C5: in every successfully rendered matrix the `polars` column exists and
every row carries the check mark there — never the cross. -/
theorem c5_polars_always_check (results : List (String × String)) (m : Matrix)
    (h : renderMatrix results = some m) :
    "polars" ∈ m.cols ∧ ∀ row ∈ m.rows, ("polars", CHECK_MARK) ∈ row.2 ∧
      ∀ v, ("polars", v) ∈ row.2 → v = CHECK_MARK := by
  obtain ⟨hcols, hrows, -, -⟩ := renderMatrix_some h
  have hpol : "polars" ∈ matrixCols results := mem_matrixCols.mpr (Or.inl rfl)
  refine ⟨hcols ▸ hpol, ?_⟩
  intro row hrow
  rw [hrows] at hrow
  obtain ⟨meth, -, hrow2⟩ := List.mem_map.mp hrow
  constructor
  · rw [← hrow2]
    have hmem : ("polars", cellValue results "polars" meth)
        ∈ (matrixCols results).map fun b => (b, cellValue results b meth) :=
      List.mem_map_of_mem _ hpol
    simpa [cellValue] using hmem
  · intro v hv
    rw [← hrow2] at hv
    obtain ⟨b, -, hbv⟩ := List.mem_map.mp hv
    have hb : b = "polars" := congrArg Prod.fst hbv
    have hv2 : cellValue results b meth = v := congrArg Prod.snd hbv
    rw [← hv2, hb]
    simp [cellValue]

/-- C5 witness: a one-method matrix rendered from a single narwhals row. -/
theorem c5_polars_always_check_witness :
    "polars" ∈ (Matrix.mk ["polars"] [("a", [("polars", CHECK_MARK)])]).cols ∧
      ∀ row ∈ (Matrix.mk ["polars"] [("a", [("polars", CHECK_MARK)])]).rows,
        ("polars", CHECK_MARK) ∈ row.2 ∧
          ∀ v, ("polars", v) ∈ row.2 → v = CHECK_MARK :=
  c5_polars_always_check [("narwhals", "a")]
    ⟨["polars"], [("a", [("polars", CHECK_MARK)])]⟩ (by decide)

/-- C7: the rows of every successfully rendered matrix are strictly sorted
ascending in the lexicographic order on their method names. -/
theorem c7_rows_sorted (results : List (String × String)) (m : Matrix)
    (h : renderMatrix results = some m) :
    List.Sorted strLtRel (m.rows.map Prod.fst) := by
  rw [renderMatrix_rowNames h]
  exact keptMethods_sorted_lt results

/-- C7 witness: two methods given in reverse order come out sorted. -/
theorem c7_rows_sorted_witness :
    List.Sorted strLtRel
      ((Matrix.mk ["polars"]
        [("a", [("polars", CHECK_MARK)]), ("b", [("polars", CHECK_MARK)])]).rows.map
          Prod.fst) :=
  c7_rows_sorted [("narwhals", "b"), ("narwhals", "a")]
    ⟨["polars"], [("a", [("polars", CHECK_MARK)]), ("b", [("polars", CHECK_MARK)])]⟩
    (by decide)

/-- C1 amended: the columns after `Method` are all column labels — the
backends that contributed rows plus the appended `polars` column — sorted
ascending together; `polars` is not placed last but in its alphabetical
position. -/
theorem c1_columns_sorted (results : List (String × String)) (m : Matrix)
    (h : renderMatrix results = some m) :
    List.Sorted strLeRel m.cols ∧ "polars" ∈ m.cols ∧
      ∀ b, b ∈ m.cols ↔ (b = "polars" ∨ (b ≠ "narwhals" ∧ b ∈ results.map Prod.fst)) := by
  obtain ⟨hcols, -, -, -⟩ := renderMatrix_some h
  rw [hcols]
  exact ⟨matrixCols_sorted results, mem_matrixCols.mpr (Or.inl rfl),
    fun b => mem_matrixCols⟩

/-- C1 witness: a matrix with a spark-like column, where the sorted order
puts `polars` before `spark-like`. -/
theorem c1_columns_sorted_witness :
    List.Sorted strLeRel
        (Matrix.mk ["polars", "spark-like"]
          [("a", [("polars", CHECK_MARK), ("spark-like", CHECK_MARK)])]).cols ∧
      "polars" ∈ (Matrix.mk ["polars", "spark-like"]
          [("a", [("polars", CHECK_MARK), ("spark-like", CHECK_MARK)])]).cols ∧
      ∀ b, b ∈ (Matrix.mk ["polars", "spark-like"]
          [("a", [("polars", CHECK_MARK), ("spark-like", CHECK_MARK)])]).cols ↔
        (b = "polars" ∨ (b ≠ "narwhals" ∧
          b ∈ ([("narwhals", "a"), ("spark-like", "a")].map Prod.fst))) :=
  c1_columns_sorted [("narwhals", "a"), ("spark-like", "a")]
    ⟨["polars", "spark-like"], [("a", [("polars", CHECK_MARK), ("spark-like", CHECK_MARK)])]⟩
    (by decide)

/-- C1 counterexample: with a spark-like column present the program's column
order is `["polars", "spark-like"]`, while the claimed order — backend names
sorted, then `polars` last — would be `["spark-like", "polars"]`. -/
theorem c1_counterexample :
    ((processModule envC1 "dataframe").aggregate.map fun d => d.matrix.cols)
        = some ["polars", "spark-like"] ∧
      List.insertionSort strLeRel ((["polars", "spark-like"] : List String).erase "polars")
          ++ ["polars"] = ["spark-like", "polars"] ∧
      (["polars", "spark-like"] : List String) ≠ ["spark-like", "polars"] := by decide

/-- C8: the canonical enumerator yields exactly the member names that do not
start with an underscore; the backend enumerator yields exactly those that
additionally are not `not_implemented` instances; hence neither enumerator
ever yields an underscore-prefixed name. -/
theorem c8_method_enumerators (kls : PyClass) (meth : String) :
    ((meth ∈ get_class_methods kls) ↔
        ∃ mem ∈ kls.members, mem.name = meth ∧ strStarts meth "_" = false) ∧
      ((meth ∈ iter_implemented_methods kls) ↔
        ∃ mem ∈ kls.members, mem.name = meth ∧ strStarts meth "_" = false ∧
          mem.notImpl = false) ∧
      ((get_class_methods kls).all fun s => !(strStarts s "_")) = true ∧
      ((iter_implemented_methods kls).all fun s => !(strStarts s "_")) = true := by
  refine ⟨?_, ?_, ?_, ?_⟩
  · unfold get_class_methods sortMembers
    constructor
    · intro hm
      obtain ⟨mem, hmem, hname⟩ := List.mem_map.mp hm
      rw [List.mem_filter, List.mem_insertionSort] at hmem
      refine ⟨mem, hmem.1, hname, ?_⟩
      rw [← hname]
      have h2 := hmem.2
      rwa [Bool.not_eq_true'] at h2
    · rintro ⟨mem, hmem, hname, hstart⟩
      refine List.mem_map.mpr ⟨mem, ?_, hname⟩
      rw [List.mem_filter, List.mem_insertionSort]
      refine ⟨hmem, ?_⟩
      rw [Bool.not_eq_true', hname]
      exact hstart
  · unfold iter_implemented_methods sortMembers
    constructor
    · intro hm
      obtain ⟨mem, hmem, hname⟩ := List.mem_map.mp hm
      rw [List.mem_filter, List.mem_insertionSort] at hmem
      have h2 := hmem.2
      rw [Bool.and_eq_true, Bool.not_eq_true', Bool.not_eq_true'] at h2
      exact ⟨mem, hmem.1, hname, hname ▸ h2.1, h2.2⟩
    · rintro ⟨mem, hmem, hname, hstart, himpl⟩
      refine List.mem_map.mpr ⟨mem, ?_, hname⟩
      rw [List.mem_filter, List.mem_insertionSort]
      refine ⟨hmem, ?_⟩
      rw [Bool.and_eq_true, Bool.not_eq_true', Bool.not_eq_true', hname]
      exact ⟨hstart, himpl⟩
  · rw [List.all_eq_true]
    intro s hs
    unfold get_class_methods at hs
    obtain ⟨mem, hmem, hname⟩ := List.mem_map.mp hs
    rw [List.mem_filter] at hmem
    rw [← hname]
    exact hmem.2
  · rw [List.all_eq_true]
    intro s hs
    unfold iter_implemented_methods at hs
    obtain ⟨mem, hmem, hname⟩ := List.mem_map.mp hs
    rw [List.mem_filter, Bool.and_eq_true] at hmem
    rw [← hname]
    exact hmem.2.1

/-- The value a list of writes leaves at a name is the last write to that
name, if any, and the prior contents otherwise. -/
theorem applyWrites_lookup :
    ∀ (L : List (String × String)) (s : Store) (n : String),
      applyWrites L s n = (match lastWrite L n with
        | some v => some v
        | none => s n) := by
  intro L
  induction L with
  | nil => intro s n; rfl
  | cons w ws ih =>
    intro s n
    obtain ⟨k, v⟩ := w
    show applyWrites ws _ n = _
    rw [ih]
    cases hlw : lastWrite ws n with
    | some v2 => simp [lastWrite, hlw]
    | none =>
      simp only [lastWrite, hlw]
      by_cases hnk : n = k
      · subst hnk
        simp
      · have hkn : ¬ k = n := fun h2 => hnk h2.symm
        simp [hnk, hkn]

/-- C9: writing the run's output twice over any starting directory contents
leaves the directory exactly as writing it once does — the pipeline is a
deterministic function of the frozen reflection environment and template, so
a rerun rewrites every file with byte-identical contents. -/
theorem c9_idempotent_store (env : Env) (s : Store) :
    applyWrites (driverWrites env) (applyWrites (driverWrites env) s)
      = applyWrites (driverWrites env) s := by
  funext n
  rw [applyWrites_lookup, applyWrites_lookup]
  cases hlw : lastWrite (driverWrites env) n with
  | some v => rfl
  | none => rfl

/-- C10: when the backend module exists and `c` is the strictly alphabetically
first class matching the resolver's predicate, the resolver's whole output is
built from `c` alone — every other matching class is ignored. -/
theorem c10_first_alphabetical (env : Env) (module_name backend nw_class_name : String)
    (classes : List PyClass) (c : PyClass)
    (h1 : env.backendModule backend module_name = some classes)
    (h2 : c ∈ classes) (h3 : matchesClass nw_class_name c = true)
    (h4 : ∀ c2 ∈ classes, matchesClass nw_class_name c2 = true → c2 = c ∨
      strLt c.name c2.name = true) :
    parse_module env module_name backend nw_class_name
      = iter_implemented_methods c ++ DIRECTLY_IMPLEMENTED_METHODS
        ++ (if module_name = "expr_str" then EXPR_STR_METHODS else []) := by
  have hmem : c ∈ (sortClasses classes).filter (matchesClass nw_class_name) := by
    rw [List.mem_filter]
    refine ⟨?_, h3⟩
    unfold sortClasses
    rw [List.mem_insertionSort]
    exact h2
  cases hfl : (sortClasses classes).filter (matchesClass nw_class_name) with
  | nil =>
    rw [hfl] at hmem
    exact absurd hmem (List.not_mem_nil c)
  | cons c0 rest =>
    have hsorted : List.Sorted classLe
        ((sortClasses classes).filter (matchesClass nw_class_name)) := by
      unfold sortClasses
      exact (List.sorted_insertionSort classLe classes).filter _
    rw [hfl] at hsorted hmem
    have hc0 : c0 ∈ classes ∧ matchesClass nw_class_name c0 = true := by
      have hmm : c0 ∈ (sortClasses classes).filter (matchesClass nw_class_name) := by
        rw [hfl]
        exact List.mem_cons_self c0 rest
      rw [List.mem_filter] at hmm
      refine ⟨?_, hmm.2⟩
      have := hmm.1
      unfold sortClasses at this
      rwa [List.mem_insertionSort] at this
    have hceq : c0 = c := by
      rcases h4 c0 hc0.1 hc0.2 with heq | hlt
      · exact heq
      · rcases List.mem_cons.mp hmem with hceq2 | hcrest
        · rw [← hceq2] at hlt
          unfold strLt at hlt
          rw [charListLt_irrefl] at hlt
          exact absurd hlt (by simp)
        · have hle : classLe c0 c := List.rel_of_sorted_cons hsorted c hcrest
          unfold classLe strLe at hle
          unfold strLt at hlt
          rw [Bool.not_eq_true'] at hle
          rw [hle] at hlt
          exact absurd hlt (by simp)
    have hfl2 : (sortClasses classes).filter (matchesClass nw_class_name) = c :: rest := by
      rw [hfl, hceq]
    simp [parse_module, h1, hfl2]

/-- C10 witness: of two matching classes, the alphabetically first one
(`ASeries`, listed second in the module) supplies the methods. -/
theorem c10_first_alphabetical_witness :
    parse_module envC10 "series" "_arrow" "Series"
      = iter_implemented_methods ⟨"ASeries", [⟨"amem", false⟩]⟩
          ++ DIRECTLY_IMPLEMENTED_METHODS
          ++ (if "series" = "expr_str" then EXPR_STR_METHODS else []) :=
  c10_first_alphabetical envC10 "series" "_arrow" "Series"
    [⟨"BSeries", [⟨"bmem", false⟩]⟩, ⟨"ASeries", [⟨"amem", false⟩]⟩]
    ⟨"ASeries", [⟨"amem", false⟩]⟩ (by decide) (by decide) (by decide) (by decide)

/-- C3 amended: whenever the backend's `expr_str` module exists and a class
matching the resolver's predicate is found there, the resolver's result
contains the two convenience aliases `tail` and `head`, whatever the class's
own members are. -/
theorem c3_expr_str_extras (env : Env) (backend nw_class_name : String)
    (classes : List PyClass)
    (h1 : env.backendModule backend "expr_str" = some classes)
    (h2 : (sortClasses classes).filter (matchesClass nw_class_name) ≠ []) :
    "tail" ∈ parse_module env "expr_str" backend nw_class_name ∧
      "head" ∈ parse_module env "expr_str" backend nw_class_name := by
  cases hfl : (sortClasses classes).filter (matchesClass nw_class_name) with
  | nil => exact absurd hfl h2
  | cons c rest =>
    constructor <;> simp [parse_module, h1, hfl, List.mem_append, EXPR_STR_METHODS]

/-- C3 witness: a backend class with no `tail`/`head` of its own still
resolves to a method list containing both. -/
theorem c3_expr_str_extras_witness :
    "tail" ∈ parse_module envC3 "expr_str" "_arrow" "StrNS" ∧
      "head" ∈ parse_module envC3 "expr_str" "_arrow" "StrNS" :=
  c3_expr_str_extras envC3 "_arrow" "StrNS" [⟨"ArrowStrNS", [⟨"alpha", false⟩]⟩]
    (by decide) (by decide)

/-- C3 counterexample: for the registered spark-like backend the `expr_str`
module is missing, so the resolver returns the empty list, which contains
neither `tail` nor `head` — the extras are not added for *every* registered
backend. -/
theorem c3_counterexample :
    envC3.backendModule "_spark_like" "expr_str" = none ∧
      parse_module envC3 "expr_str" "_spark_like" "StrNS" = [] ∧
      "tail" ∉ parse_module envC3 "expr_str" "_spark_like" "StrNS" ∧
      "head" ∉ parse_module envC3 "expr_str" "_spark_like" "StrNS" := by decide

/-- C4 amended: a method appears as a row of a document produced for a module
only if it is a canonical (`get_class_methods`) method of some non-excluded
class scanned in that module — the narwhals-column filter is applied to the
union of the canonical methods of the classes whose rows feed the same
rendering, not to each conceptual class separately. -/
theorem c4_canonical_union_filter (env : Env) (module_name : String) :
    ∀ d ∈ (processModule env module_name).allDocs,
      ∀ meth ∈ d.matrix.rows.map Prod.fst,
        ∃ c ∈ env.nwModule module_name, c.name ∉ EXCLUDE_CLASSES ∧
          meth ∈ get_class_methods c := by
  intro d hd meth hmeth
  unfold ModuleResult.allDocs at hd
  rcases List.mem_append.mp hd with hdi | hda
  · rw [processModule_individuals] at hdi
    rcases (processClasses_spec env module_name
        (sortClasses (env.nwModule module_name)) ⟨[], [], [], false⟩).2 d hdi with
      h | ⟨c, hc, hnex, -, -, -, hrm⟩
    · exact absurd h (List.not_mem_nil d)
    · rw [renderMatrix_rowNames hrm] at hmeth
      have hin : c ∈ env.nwModule module_name := by
        unfold sortClasses at hc
        rwa [List.mem_insertionSort] at hc
      exact ⟨c, hin, hnex, narwhals_mem_classRows (mem_keptMethods.mp hmeth)⟩
  · have hagg : (processModule env module_name).aggregate = some d :=
      Option.mem_def.mp (Option.mem_toList.mp hda)
    obtain ⟨hrm, -, -⟩ := processModule_aggregate hagg
    rw [renderMatrix_rowNames hrm] at hmeth
    rcases (processClasses_spec env module_name
        (sortClasses (env.nwModule module_name)) ⟨[], [], [], false⟩).1 _
        (mem_keptMethods.mp hmeth) with h | ⟨c, hc, hnex, hmem⟩
    · exact absurd h (List.not_mem_nil _)
    · have hin : c ∈ env.nwModule module_name := by
        unfold sortClasses at hc
        rwa [List.mem_insertionSort] at hc
      exact ⟨c, hin, hnex, narwhals_mem_classRows hmem⟩

/-- C4 witness: the method row `alpha` of the aggregate document traces back
to the canonical class `Thing`. -/
theorem c4_canonical_union_filter_witness :
    ∃ c ∈ envW.nwModule "dataframe", c.name ∉ EXCLUDE_CLASSES ∧
      "alpha" ∈ get_class_methods c :=
  c4_canonical_union_filter envW "dataframe"
    ⟨"Dataframe", "dataframe", ⟨["polars"], [("alpha", [("polars", CHECK_MARK)])]⟩⟩
    (by decide) "alpha" (by decide)

/-- C4 counterexample: the arrow resolver for the conceptual class `Thing`
returns `beta`, which is not a canonical method of `Thing`; the aggregate
matrix nevertheless has a row `beta` (marked implemented for arrow), because
`beta` is canonical for the *other* class `ThingExtra` of the same module. -/
theorem c4_counterexample :
    "beta" ∈ parse_module envC4 "dataframe" "_arrow" "Thing" ∧
      (⟨"Thing", [⟨"alpha", false⟩]⟩ : PyClass) ∈ envC4.nwModule "dataframe" ∧
      "beta" ∉ get_class_methods ⟨"Thing", [⟨"alpha", false⟩]⟩ ∧
      (processModule envC4 "dataframe").aggregate
        = some ⟨"Dataframe", "dataframe",
            ⟨["arrow", "polars"],
              [("alpha", [("arrow", CROSS_MARK), ("polars", CHECK_MARK)]),
               ("beta", [("arrow", CHECK_MARK), ("polars", CHECK_MARK)])]⟩⟩ := by decide

/-- C6 amended: a backend whose implementation module is missing for a
conceptual module resolves to the empty method list with no exception, and
consequently *no column for that backend exists at all* in any document the
module produces (rather than a column full of the unsupported marker). -/
theorem c6_missing_module_no_column (env : Env) (module_name : String) (b : Backend)
    (hb : b ∈ BACKENDS)
    (hmiss : env.backendModule b.module module_name = none) :
    (∀ nw_class_name, parse_module env module_name b.module nw_class_name = []) ∧
      ∀ d ∈ (processModule env module_name).allDocs, b.name ∉ d.matrix.cols := by
  have hparse : ∀ cname, parse_module env module_name b.module cname = [] := by
    intro cname
    unfold parse_module
    rw [hmiss]
  refine ⟨hparse, ?_⟩
  intro d hd
  unfold ModuleResult.allDocs at hd
  rcases List.mem_append.mp hd with hdi | hda
  · rw [processModule_individuals] at hdi
    rcases (processClasses_spec env module_name
        (sortClasses (env.nwModule module_name)) ⟨[], [], [], false⟩).2 d hdi with
      h | ⟨c, -, -, -, -, -, hrm⟩
    · exact absurd h (List.not_mem_nil d)
    · exact no_column_of_no_rows hb hparse hrm fun p hp => ⟨c, hp⟩
  · have hagg : (processModule env module_name).aggregate = some d :=
      Option.mem_def.mp (Option.mem_toList.mp hda)
    obtain ⟨hrm, -, -⟩ := processModule_aggregate hagg
    refine no_column_of_no_rows hb hparse hrm ?_
    intro p hp
    rcases (processClasses_spec env module_name
        (sortClasses (env.nwModule module_name)) ⟨[], [], [], false⟩).1 p hp with
      h | ⟨c, -, -, hmem⟩
    · exact absurd h (List.not_mem_nil p)
    · exact ⟨c, hmem⟩

/-- C6 witness: with no backend modules at all, the arrow resolver returns
the empty list everywhere and no document of the `series` module has an
arrow column. -/
theorem c6_missing_module_no_column_witness :
    (∀ nw_class_name, parse_module envW "series" "_arrow" nw_class_name = []) ∧
      ∀ d ∈ (processModule envW "series").allDocs, "arrow" ∉ d.matrix.cols :=
  c6_missing_module_no_column envW "series" ⟨"arrow", "_arrow", .EAGER⟩
    (by decide) (by decide)

/-- C6 counterexample: the arrow `series` module is missing, the document for
the module has a non-empty row set, and yet it has *no* arrow column — so its
rows cannot show the unsupported marker in an arrow column, contrary to the
claim's consequent. -/
theorem c6_counterexample :
    envW.backendModule "_arrow" "series" = none ∧
      (processModule envW "series").allDocs
        = [⟨"Series", "series", ⟨["polars"], [("alpha", [("polars", CHECK_MARK)])]⟩⟩] ∧
      "arrow" ∉ (["polars"] : List String) ∧
      (⟨["polars"], [("alpha", [("polars", CHECK_MARK)])]⟩ : Matrix).rows ≠ [] := by decide

/-- C2 amended: in a completed module iteration the aggregate document is
skipped exactly when *both* frame classes were found among the module's
classes — regardless of whether further classes exist in the module (the
driver only checks its `processed_classes` set, which can never record
anything but the two frame names). -/
theorem c2_aggregate_skip_iff (env : Env) (module_name : String)
    (h : (processModule env module_name).aborted = false) :
    ((processModule env module_name).aggregate = none ↔
      ("DataFrame" ∈ (env.nwModule module_name).map PyClass.name ∧
        "LazyFrame" ∈ (env.nwModule module_name).map PyClass.name)) := by
  unfold processModule at h ⊢
  dsimp only at h ⊢
  set st := processClasses env module_name (sortClasses (env.nwModule module_name))
    ⟨[], [], [], false⟩ with hst
  by_cases hab : st.aborted = true
  · rw [if_pos hab] at h
    exact absurd h (by simp)
  · rw [if_neg hab] at h ⊢
    have hstab : st.aborted = false := by simpa using hab
    have hproc := processClasses_processed env module_name
      (sortClasses (env.nwModule module_name)) ⟨[], [], [], false⟩ hstab
    have hname : ∀ n, n ∈ FRAME_CLASSES → n ∉ EXCLUDE_CLASSES →
        (n ∈ st.processed ↔ n ∈ (env.nwModule module_name).map PyClass.name) := by
      intro n hnfr hnex
      rw [hproc n]
      constructor
      · rintro (h2 | ⟨c, hc, hcname, -, -⟩)
        · exact absurd h2 (List.not_mem_nil n)
        · have hin : c ∈ env.nwModule module_name := by
            unfold sortClasses at hc
            rwa [List.mem_insertionSort] at hc
          exact List.mem_map.mpr ⟨c, hin, hcname⟩
      · intro h2
        obtain ⟨c, hc, hcname⟩ := List.mem_map.mp h2
        refine Or.inr ⟨c, ?_, hcname, hnfr, hnex⟩
        unfold sortClasses
        rw [List.mem_insertionSort]
        exact hc
    have hD := hname "DataFrame" (by decide) (by decide)
    have hL := hname "LazyFrame" (by decide) (by decide)
    by_cases hboth : "DataFrame" ∈ st.processed ∧ "LazyFrame" ∈ st.processed
    · rw [if_pos hboth]
      exact iff_of_true rfl ⟨hD.mp hboth.1, hL.mp hboth.2⟩
    · rw [if_neg hboth] at h ⊢
      cases hrm : renderMatrix st.results with
      | none =>
        rw [hrm] at h
        exact absurd h (by simp)
      | some m =>
        constructor
        · intro habs
          simp at habs
        · rintro ⟨h1, h2⟩
          exact absurd ⟨hD.mpr h1, hL.mpr h2⟩ hboth

/-- C2 witness: a module with neither frame class completes and does render
its aggregate document. -/
theorem c2_aggregate_skip_iff_witness :
    ((processModule envW "dataframe").aggregate = none ↔
      ("DataFrame" ∈ (envW.nwModule "dataframe").map PyClass.name ∧
        "LazyFrame" ∈ (envW.nwModule "dataframe").map PyClass.name)) :=
  c2_aggregate_skip_iff envW "dataframe" (by decide)

/-- C2 counterexample: the module's classes are `DataFrame`, `Extra` and
`LazyFrame` — more than just the two frame variants — yet the run completes
with only the two individual documents and *no* aggregate document, because
the skip test only asks whether both frame names were processed. -/
theorem c2_counterexample :
    (processModule envC2 "dataframe").aborted = false ∧
      (processModule envC2 "dataframe").aggregate = none ∧
      "Extra" ∈ (envC2.nwModule "dataframe").map PyClass.name ∧
      "Extra" ∉ FRAME_CLASSES ∧ "Extra" ∉ EXCLUDE_CLASSES ∧
      (processModule envC2 "dataframe").individuals.map Doc.title
        = ["DataFrame", "LazyFrame"] := by decide

end BackendCompleteness
